import Mathlib

/-!
Verification of the retrieval core of a legal-document RAG system
(`app/utils/document_processor.py`, class `LegalDocumentProcessor`).

The Python code is shallowly embedded: text is `List Char`, Python dicts
are association lists (`Dict`), fallible code returns `Option`/`Except`,
and the stateful vector store is passed as explicit state.  Calls into
external libraries (the `re` module, `nltk.sent_tokenize`, `chromadb`,
`numpy.argsort`, the cross-encoder) are modelled as oracle functions
supplied as parameters; every piece of control flow, arithmetic, guard,
dictionary update and list manipulation written in the repository itself
is translated directly from the source.
-/

namespace Rag

/-- Values stored in chunk-metadata dictionaries (Python dict values used by
`_chunk_text`: strings and numbers). -/
inductive MVal
  | s : List Char → MVal
  | i : Int → MVal
deriving DecidableEq

/-- A Python dict with string keys, kept in insertion order. -/
abbrev Dict := List (String × MVal)

/-- `d[k]` lookup. -/
def dictGet : Dict → String → Option MVal
  | [], _ => none
  | (k', v) :: rest, k => if k' = k then some v else dictGet rest k

/-- `d[k] = v` / one entry of `d.update({...})`: replace in place if the key
exists (Python keeps its position), otherwise append. -/
def dictSet : Dict → String → MVal → Dict
  | [], k, v => [(k, v)]
  | (k', v') :: rest, k, v =>
      if k' = k then (k, v) :: rest else (k', v') :: dictSet rest k v

/-- `d.copy()` followed by `d.update({...})` with the given literal entries. -/
def dictSets (d : Dict) (us : List (String × MVal)) : Dict :=
  us.foldl (fun acc u => dictSet acc u.1 u.2) d

/-- Python `str.strip()`: drop whitespace from both ends. -/
def pyStrip (l : List Char) : List Char :=
  ((l.dropWhile Char.isWhitespace).reverse.dropWhile Char.isWhitespace).reverse

/-- Clamp one bound of a Python slice `t[a:b]`: negative indices count from
the end, then the result is clamped to `[0, len]`. -/
def pyBound (len : Nat) (i : Int) : Nat :=
  min (if i < 0 then i + len else i).toNat len

/-- Python slice `t[a:b]` with `Int` bounds (as in the fixed-width fallback,
where `start = end - chunk_overlap` can go negative). -/
def pySlice (t : List Char) (a b : Int) : List Char :=
  (t.take (pyBound t.length b)).drop (pyBound t.length a)

/-- A produced chunk: `{"text": ..., "metadata": {...}}`. -/
structure Chunk where
  text : List Char
  metadata : Dict
deriving DecidableEq

/-- The metadata `type` tags written by `_chunk_text` (as strings). -/
def strShortFragment : List Char := "short_fragment".toList
def strLegalSection : List Char := "legal_section".toList
def strParagraph : List Char := "paragraph".toList
def strFullText : List Char := "full_text".toList
def strSubsection : List Char := "subsection".toList
def strNumberedItem : List Char := "numbered_item".toList
def strSentenceGroup : List Char := "sentence_group".toList
def strCharacterChunk : List Char := "character_chunk".toList

/-- What the code reads off one `section_pattern` match object:
`.start()`, `.group(0)` and `.group(2)`. -/
structure ReMatch2 where
  mstart : Nat
  g0 : List Char
  g2 : List Char

/-- What the code reads off one `subsection_pattern` match (`.start()`,
`.group(0)`) or one `numbered_pattern` match (`.start()`, `.group(1)`);
`g` is the group the code extracts for that pattern. -/
structure ReMatch1 where
  mstart : Nat
  g : List Char

/-- Oracles for the external text libraries `_chunk_text` calls:
`re.finditer` on the three precompiled patterns, `re.split` on blank
lines, and `nltk.sent_tokenize`.  All of them are deterministic pure
functions of the text, which is what a function-valued parameter models. -/
structure TextOracles where
  sectionMatches : List Char → List ReMatch2
  paragraphSplit : List Char → List (List Char)
  subsectionMatches : List Char → List ReMatch1
  numberedMatches : List Char → List ReMatch1
  sentTokenize : List Char → List (List Char)

/-- Pair every match with its span end: the next match's start, or the text
length for the last match (the `i == len(matches) - 1` branch). -/
def spans2 : List ReMatch2 → Nat → List (ReMatch2 × Nat)
  | [], _ => []
  | [m], tlen => [(m, tlen)]
  | m :: m2 :: rest, tlen => (m, m2.mstart) :: spans2 (m2 :: rest) tlen

/-- Same for single-group matches. -/
def spans1 : List ReMatch1 → Nat → List (ReMatch1 × Nat)
  | [], _ => []
  | [m], tlen => [(m, tlen)]
  | m :: m2 :: rest, tlen => (m, m2.mstart) :: spans1 (m2 :: rest) tlen

/-- One `legal_section` unit: `text[start_pos:end_pos].strip()` plus the
metadata dict literal from the source. -/
def mkLegalSection (t : List Char) (p : ReMatch2 × Nat) : Chunk :=
  let sectionText := pyStrip ((t.take p.2).drop p.1.mstart)
  { text := sectionText,
    metadata := [("type", MVal.s strLegalSection),
                 ("section_id", MVal.s (pyStrip p.1.g0)),
                 ("section_num", MVal.s (pyStrip p.1.g2)),
                 ("length", MVal.i sectionText.length)] }

/-- Step 1 of `_chunk_text` for one input text of length ≥ 100: build the
`sections` list (legal sections if ≥ 2 pattern matches, else non-empty
paragraphs if ≥ 2, else the whole text as `full_text`). -/
def sectionsOf (o : TextOracles) (t : List Char) : List Chunk :=
  let ms := o.sectionMatches t
  if 1 < ms.length then
    (spans2 ms t.length).map (mkLegalSection t)
  else
    let paras := o.paragraphSplit t
    if 1 < paras.length then
      (paras.filter (fun p => 0 < (pyStrip p).length)).map (fun p =>
        { text := pyStrip p,
          metadata := [("type", MVal.s strParagraph),
                       ("length", MVal.i (pyStrip p).length)] })
    else
      [{ text := t,
         metadata := [("type", MVal.s strFullText),
                      ("length", MVal.i t.length)] }]

/-- A `subsection` sub-unit of an oversized section: span text stripped,
parent metadata copied and updated. -/
def mkSubsection (st : List Char) (md : Dict) (p : ReMatch1 × Nat) : Chunk :=
  let subText := pyStrip ((st.take p.2).drop p.1.mstart)
  { text := subText,
    metadata := dictSets md [("type", MVal.s strSubsection),
                             ("subsection_id", MVal.s (pyStrip p.1.g)),
                             ("length", MVal.i subText.length)] }

/-- A `numbered_item` sub-unit. -/
def mkNumbered (st : List Char) (md : Dict) (p : ReMatch1 × Nat) : Chunk :=
  let itemText := pyStrip ((st.take p.2).drop p.1.mstart)
  { text := itemText,
    metadata := dictSets md [("type", MVal.s strNumberedItem),
                             ("item_num", MVal.s (pyStrip p.1.g)),
                             ("length", MVal.i itemText.length)] }

/-- A `sentence_group` chunk: `" ".join(current_group)` plus copied-and-updated
parent metadata. -/
def mkSentenceGroup (md : Dict) (group : List (List Char)) : Chunk :=
  let gtext := List.intercalate [' '] group
  { text := gtext,
    metadata := dictSets md [("type", MVal.s strSentenceGroup),
                             ("sentence_count", MVal.i group.length),
                             ("length", MVal.i gtext.length)] }

/-- The greedy sentence-grouping loop: accumulate stripped sentences until
adding the next one would exceed `chunk_size` (and the group is non-empty),
then flush; flush the remainder at the end. -/
def groupSentences (cs : Nat) (md : Dict) :
    List (List Char) → List (List Char) → Nat → List Chunk
  | [], group, _ =>
      if group.length ≠ 0 then [mkSentenceGroup md group] else []
  | sRaw :: rest, group, clen =>
      let s := pyStrip sRaw
      if cs < clen + s.length ∧ group.length ≠ 0 then
        mkSentenceGroup md group :: groupSentences cs md rest [s] s.length
      else
        groupSentences cs md rest (group ++ [s]) (clen + s.length)

/-- Step 2 of `_chunk_text` for one oversized section: the `subsections`
list (subsection matches if ≥ 2, else numbered matches if ≥ 2, else
sentence grouping). -/
def subsectionsOf (o : TextOracles) (cs : Nat) (sec : Chunk) : List Chunk :=
  let subs := o.subsectionMatches sec.text
  if 1 < subs.length then
    (spans1 subs sec.text.length).map (mkSubsection sec.text sec.metadata)
  else
    let nums := o.numberedMatches sec.text
    if 1 < nums.length then
      (spans1 nums sec.text.length).map (mkNumbered sec.text sec.metadata)
    else
      groupSentences cs sec.metadata (o.sentTokenize sec.text) [] 0

/-- The sentence-terminal characters of the fallback's backward scan. -/
def isTerminal (c : Char) : Bool :=
  c = '.' || c = '!' || c = '?' || c = '\n'

/-- The backward scan of the fixed-width fallback: for the first
`i ∈ range(min(100, chunk_overlap))` with `end - i > 0` and
`subsec_text[end - i]` a sentence terminal, the new end is `end - i + 1`;
otherwise the raw end stands.  (Note `i` starts at `0`, i.e. the scan
begins one position past the window.) -/
def scanEnd (t : List Char) (co : Nat) (e : Int) : Int :=
  match (List.range (min 100 co)).find?
      (fun i : Nat =>
        decide (0 < e - (i : Int)) && isTerminal (t.getD (e - (i : Int)).toNat ' ')) with
  | some i => e - (i : Int) + 1
  | none => e

/-- One emitted `character_chunk`: the slice plus copied-and-updated
metadata with `chunk_type`, `chunk_start`, `chunk_end`, `length`. -/
def mkCharChunk (md : Dict) (t : List Char) (a b : Int) : Chunk :=
  let ck := pySlice t a b
  { text := ck,
    metadata := dictSets md [("chunk_type", MVal.s strCharacterChunk),
                             ("chunk_start", MVal.i a),
                             ("chunk_end", MVal.i b),
                             ("length", MVal.i ck.length)] }

/-- The fixed-width fallback `while start < len(subsec_text)` loop.  The loop
need not terminate (its progress depends on the parameters), so it carries
explicit fuel: `none` means the Python loop would still be running after
`fuel` iterations.  `start` is an `Int` because `start = end - chunk_overlap`
can go negative in Python. -/
def charLoop (t : List Char) (md : Dict) (cs co : Nat) :
    Nat → Int → Option (List Chunk)
  | 0, _ => none
  | fuel + 1, start =>
      if start < (t.length : Int) then
        let e0 : Int := start + cs
        let e := if e0 < (t.length : Int) then scanEnd t co e0 else e0
        let c := mkCharChunk md t start e
        let start1 := e - co
        if (t.length : Int) ≤ start1 then some [c]
        else (charLoop t md cs co fuel start1).map (fun rest => c :: rest)
      else some []

/-- Sequentially run `f` over a list, appending the produced chunk lists in
order; diverge (`none`) as soon as one call diverges.  This is how the
Python loops append into the single `chunks_with_metadata` list. -/
def collectSome (f : α → Option (List β)) : List α → Option (List β)
  | [] => some []
  | x :: xs =>
      match f x, collectSome f xs with
      | some l, some r => some (l ++ r)
      | _, _ => none

/-- Step 3 for one subsection: pass it through if it fits, else run the
fixed-width fallback from offset 0. -/
def processSubsec (cs co fuel : Nat) (sub : Chunk) : Option (List Chunk) :=
  if sub.text.length ≤ cs then some [sub]
  else charLoop sub.text sub.metadata cs co fuel 0

/-- One section: pass it through if it fits, else subdivide and process
each subsection in order. -/
def processSection (o : TextOracles) (cs co fuel : Nat) (sec : Chunk) :
    Option (List Chunk) :=
  if sec.text.length ≤ cs then some [sec]
  else collectSome (processSubsec cs co fuel) (subsectionsOf o cs sec)

/-- One input text: texts shorter than 100 characters become a single
`short_fragment` chunk; otherwise split into sections and process each. -/
def processText (o : TextOracles) (cs co fuel : Nat) (t : List Char) :
    Option (List Chunk) :=
  if t.length < 100 then
    some [{ text := t,
            metadata := [("type", MVal.s strShortFragment),
                         ("length", MVal.i t.length)] }]
  else collectSome (processSection o cs co fuel) (sectionsOf o t)

/-- `_chunk_text`, internal view: the `chunks_with_metadata` list. -/
def chunkTextMeta (o : TextOracles) (texts : List (List Char))
    (cs co fuel : Nat) : Option (List Chunk) :=
  collectSome (processText o cs co fuel) texts

/-- `_chunk_text`'s actual return value: `[item["text"] for item in
chunks_with_metadata]`. -/
def chunkText (o : TextOracles) (texts : List (List Char))
    (cs co fuel : Nat) : Option (List (List Char)) :=
  (chunkTextMeta o texts cs co fuel).map (List.map Chunk.text)

/-!  ## The retrieval side: `query_dataset`

The Chroma collection is modelled, for one fixed query, as the ranked
list of its entries ordered by embedding similarity to that query:
`collection.query(query_texts=[q], n_results=n)` returns the first `n`
entries, and adding `where_document={"$contains": kw}` returns the first
`n` entries whose document contains `kw` as a substring, in the same
ranking.  Distances are rationals (`1.1` is `11/10`); the claims proved
here never depend on numeric values of distances or scores. -/

/-- One stored chunk of a collection, from the viewpoint of one query. -/
structure Entry where
  eid : Nat
  doc : List Char
  emeta : Dict
  dist : ℚ
deriving DecidableEq

/-- A collection: its entries ranked by similarity to the fixed query. -/
structure Coll where
  entries : List Entry
deriving DecidableEq

/-- The `{ids, documents, metadatas, distances}` result shape, inner lists
of the outer-list-of-one convention. -/
structure QRes where
  ids : List Nat
  documents : List (List Char)
  metadatas : List Dict
  distances : Option (List ℚ)
deriving DecidableEq

/-- `collection.query(query_texts=[q], n_results=n)`. -/
def collQuery (c : Coll) (n : Nat) : QRes :=
  let hits := c.entries.take n
  { ids := hits.map Entry.eid,
    documents := hits.map Entry.doc,
    metadatas := hits.map Entry.emeta,
    distances := some (hits.map Entry.dist) }

/-- The `$contains` substring test of the keyword sub-query. -/
def containsSub (hay needle : List Char) : Bool :=
  (List.range (hay.length + 1)).any
    (fun k => decide ((hay.drop k).take needle.length = needle))

/-- `collection.query(..., where_document={"$contains": kw}, n_results=n)`. -/
def collQueryContains (c : Coll) (kw : List Char) (n : Nat) : QRes :=
  let hits := (c.entries.filter (fun e => containsSub e.doc kw)).take n
  { ids := hits.map Entry.eid,
    documents := hits.map Entry.doc,
    metadatas := hits.map Entry.emeta,
    distances := some (hits.map Entry.dist) }

/-- Python `str.split()`: split on whitespace runs, dropping empty parts. -/
def splitWsAux : List Char → List Char → List (List Char)
  | [], acc => if acc.length ≠ 0 then [acc.reverse] else []
  | ch :: rest, acc =>
      if ch.isWhitespace then
        if acc.length ≠ 0 then acc.reverse :: splitWsAux rest []
        else splitWsAux rest []
      else splitWsAux rest (ch :: acc)

def pySplitWs (l : List Char) : List (List Char) := splitWsAux l []

/-- `[kw.strip() for kw in query.lower().split() if len(kw.strip()) > 3]`. -/
def queryKeywords (q : List Char) : List (List Char) :=
  (pySplitWs (q.map Char.toLower)).filterMap (fun kw =>
    let s := pyStrip kw
    if 3 < s.length then some s else none)

/-- `max(all_results["distances"][0]) if all_results["distances"][0] else 1.0`. -/
def maxDist : List ℚ → ℚ
  | [] => 1
  | h :: t => t.foldl max h

/-- Append keyword hit `i` unless its id is already present in the merged
ids (the code appends into the very list that the `in vector_doc_ids`
membership test consults, so the test sees earlier keyword hits too). -/
def appendHit (kres : QRes) (acc : QRes) (i : Nat) : QRes :=
  let did := kres.ids.getD i 0
  if did ∈ acc.ids then acc
  else
    { ids := acc.ids ++ [did],
      documents := acc.documents ++ [kres.documents.getD i []],
      metadatas := acc.metadatas ++ [kres.metadatas.getD i []],
      distances :=
        match acc.distances with
        | none => none
        | some ds => some (ds ++ [maxDist ds * (11 / 10)]) }

/-- The body of `for keyword in keywords[:3]` for one keyword (the
`try`/`except` around it only matters when a sub-query fails; the store
model is total, matching the claims' no-keyword-error hypothesis). -/
def mergeKeyword (c : Coll) (n : Nat) (acc : QRes) (kw : List Char) : QRes :=
  let kres := collQueryContains c kw (min n 10)
  if kres.ids.length ≠ 0 then
    (List.range kres.ids.length).foldl (appendHit kres) acc
  else acc

/-- The hybrid-search stage of `query_dataset`: vector search for
`min(n_results * 2, 20)` hits, then keyword augmentation. -/
def hybridMerge (c : Coll) (q : List Char) (n : Nat) : QRes :=
  let vres := collQuery c (min (n * 2) 20)
  let keywords := queryKeywords q
  let all0 : QRes :=
    { ids := vres.ids, documents := vres.documents,
      metadatas := vres.metadatas, distances := vres.distances }
  if keywords.length ≠ 0 then (keywords.take 3).foldl (mergeKeyword c n) all0
  else all0

/-- The reranking stage: guarded by `len(documents[0]) > 0`, then inside a
`try` by `len(documents[0]) > n_results`; `predict` models the
cross-encoder (its load and scoring both live inside the `try`, so a
failure of either is its `error`); `argsort` models
`np.argsort(-np.array(scores))`. -/
def rerankStep (q : List Char) (n : Nat)
    (predict : List (List Char × List Char) → Except Unit (List ℚ))
    (argsort : List ℚ → List Nat) (res : QRes) : QRes :=
  if 0 < res.documents.length then
    if n < res.documents.length then
      match predict (res.documents.map (fun d => (q, d))) with
      | Except.error _ => res
      | Except.ok scores =>
          let idxs := (argsort scores).take n
          { documents := idxs.map (fun i => res.documents.getD i []),
            ids := idxs.map (fun i => res.ids.getD i 0),
            metadatas := idxs.map (fun i => res.metadatas.getD i []),
            distances :=
              match res.distances with
              | some ds => some (idxs.map (fun i => ds.getD i 0))
              | none => none }
    else res
  else res

/-- `query_dataset(dataset_name, query, n_results, use_hybrid_search,
use_reranking)`. -/
def queryDataset (c : Coll) (q : List Char) (n : Nat)
    (useHybrid useRerank : Bool)
    (predict : List (List Char × List Char) → Except Unit (List ℚ))
    (argsort : List ℚ → List Nat) : QRes :=
  if useHybrid then
    let res := hybridMerge c q n
    if useRerank then rerankStep q n predict argsort res else res
  else collQuery c n

/-- What every output of `np.argsort(-np.array(scores))` satisfies: a
permutation of `range(len(scores))` listing indices in weakly descending
score order.  Tie order is **not** part of numpy's contract (the default
sort kind is quicksort). -/
def ArgsortSpec (scores : List ℚ) (idxs : List Nat) : Prop :=
  List.Perm idxs (List.range scores.length) ∧
  idxs.Pairwise (fun i j => scores.getD j 0 ≤ scores.getD i 0)

/-!  ## The indexing side: `create_dataset`

The per-file loop of `create_dataset` is modelled with the vector store's
committed batches and the number of `collection.add` calls made so far as
explicit state.  `process_document` (PDF extraction + chunking), the
legal-metadata block (a pure regex computation over the chunk text) and
the id construction `f"{filename}_{i}_{uuid4()}"` are oracles; the
filtering, batching, error flow and count bookkeeping are the source's. -/

/-- One batch handed to `collection.add`. -/
structure Batch where
  docs : List (List Char)
  metas : List Dict
  bids : List (List Char)
deriving DecidableEq

def emptyBatch : Batch := ⟨[], [], []⟩

/-- `for i in range(0, len(documents), batch_size)` with `batch_size=100`:
slice the three parallel lists into batches of 100.  The counter is an
upper bound on the number of slices (each strictly shortens a non-empty
`docs` list), so `mkBatches` below never exhausts it. -/
def mkBatchesAux : Nat → List (List Char) → List Dict → List (List Char) →
    List Batch
  | 0, _, _, _ => []
  | fuel + 1, docs, metas, ids =>
      if docs = [] then []
      else
        ⟨docs.take 100, metas.take 100, ids.take 100⟩ ::
          mkBatchesAux fuel (docs.drop 100) (metas.drop 100) (ids.drop 100)

def mkBatches (docs : List (List Char)) (metas : List Dict)
    (ids : List (List Char)) : List Batch :=
  mkBatchesAux docs.length docs metas ids

/-- Run `collection.add` on each batch in order; `k` counts add calls made
so far, `store` is the committed state.  A failing add raises, which the
per-document `except` catches: the flag records whether all batches
committed. -/
def addBatchSeq (addO : Nat → Batch → Except Unit Unit) :
    Nat → List Batch → List Batch → Nat × List Batch × Bool
  | k, store, [] => (k, store, true)
  | k, store, b :: bs =>
      match addO k b with
      | Except.ok _ => addBatchSeq addO (k + 1) (store ++ [b]) bs
      | Except.error _ => (k + 1, store, false)

/-- The documents/metadatas/ids triple for one file: chunks shorter than
100 characters are skipped; `metaO` stands for the legal-metadata
extraction block, `idO` for `f"{filename}_{i}_{uuid4()}"`. -/
def keptOf (processDocO : String → List (List Char)) (f : String) :
    List (Nat × List Char) :=
  ((processDocO f).enum).filter (fun p => !(decide (p.2.length < 100)))

def batchesOf (processDocO : String → List (List Char))
    (metaO : String → Nat → List Char → Dict)
    (idO : String → Nat → List Char) (f : String) : List Batch :=
  let kept := keptOf processDocO f
  mkBatches (kept.map Prod.snd)
    (kept.map (fun p => metaO f p.1 p.2))
    (kept.map (fun p => idO f p.1))

/-- The body of `create_dataset`'s per-file loop.  State:
`(adds made, committed batches, doc_count, chunk_count)`.  The whole body
sits in a `try` whose `except` prints and continues, so a batch failure
leaves the counts unchanged and moves to the next file. -/
def indexFile (processDocO : String → List (List Char))
    (metaO : String → Nat → List Char → Dict)
    (idO : String → Nat → List Char)
    (addO : Nat → Batch → Except Unit Unit)
    (st : Nat × List Batch × Nat × Nat) (f : String) :
    Nat × List Batch × Nat × Nat :=
  let (k, store, dc, cc) := st
  if (processDocO f).length = 0 then (k, store, dc, cc)
  else
    let kept := keptOf processDocO f
    match addBatchSeq addO k store (batchesOf processDocO metaO idO f) with
    | (k', store', true) => (k', store', dc + 1, cc + kept.length)
    | (k', store', false) => (k', store', dc, cc)

/-- `create_dataset` over the globbed file list. -/
def createDataset (processDocO : String → List (List Char))
    (metaO : String → Nat → List Char → Dict)
    (idO : String → Nat → List Char)
    (addO : Nat → Batch → Except Unit Unit)
    (files : List String) : Nat × List Batch × Nat × Nat :=
  files.foldl (indexFile processDocO metaO idO addO) (0, [], 0, 0)

/-!  ## Proof-support definitions -/

/-- All sub-units that reach the fixed-width fallback's guard: the
subsections of every oversized section of every long-enough text.  Used
only to compute a sufficient fuel for the termination theorem. -/
def subsecsOf (o : TextOracles) (cs : Nat) (texts : List (List Char)) :
    List Chunk :=
  texts.flatMap (fun t =>
    if t.length < 100 then []
    else (sectionsOf o t).flatMap (fun sec =>
      if sec.text.length ≤ cs then [] else subsectionsOf o cs sec))

/-- Enough fuel for every fallback loop of one `_chunk_text` call, when
the window provably advances each iteration. -/
def fuelNeeded (o : TextOracles) (cs : Nat) (texts : List (List Char)) : Nat :=
  ((subsecsOf o cs texts).map (fun c => c.text.length)).foldr max 0 + 1

/-!  ## Concrete fixtures

`oracleA` is what `re` and `nltk` actually compute on the all-`'a'` texts
`tC1`, `tC2`, `tC3` below: none of them matches the section pattern
(`Article|Section|Regulation|§` + number), the blank-line splitter
(`\n\s*\n` — `tC2` has a single `'\n'`), the subsection pattern (no
`')'`), or the numbered pattern (no digit); and none contains a
sentence-final punctuation mark followed by whitespace, so punkt
sentence-tokenizes each as a single sentence. -/

def oracleA : TextOracles :=
  { sectionMatches := fun _ => []
    paragraphSplit := fun t => [t]
    subsectionMatches := fun _ => []
    numberedMatches := fun _ => []
    sentTokenize := fun t => [t] }

/-- 50 characters: takes the `short_fragment` path. -/
def tC1 : List Char := List.replicate 50 'a'

/-- 100 characters with a `'\n'` at index 5 = `chunk_size`: the backward
scan's `i = 0` probe hits the character one past the raw window. -/
def tC2 : List Char := List.replicate 5 'a' ++ '\n' :: List.replicate 94 'a'

/-- 100 characters, no sentence terminals: with `chunk_overlap =
chunk_size = 5` the window start never advances. -/
def tC3 : List Char := List.replicate 100 'a'

/-- The single chunk `_chunk_text` produces from `tC1`. -/
def cSF : Chunk :=
  ⟨tC1, [("type", MVal.s strShortFragment), ("length", MVal.i 50)]⟩

/-- The `full_text` section the model produces from `tC3`. -/
def cFT : Chunk :=
  ⟨tC3, [("type", MVal.s strFullText), ("length", MVal.i 100)]⟩

/-- The single sentence group produced from `cFT`. -/
def cSG : Chunk :=
  ⟨tC3, [("type", MVal.s strSentenceGroup), ("length", MVal.i 100),
         ("sentence_count", MVal.i 1)]⟩

/-- A cross-encoder whose every call raises. -/
def predictErr : List (List Char × List Char) → Except Unit (List ℚ) :=
  fun _ => Except.error ()

/-- A cross-encoder returning two tied scores. -/
def predictTie : List (List Char × List Char) → Except Unit (List ℚ) :=
  fun _ => Except.ok [5, 5]

/-- A cross-encoder returning two distinct scores. -/
def predictW : List (List Char × List Char) → Except Unit (List ℚ) :=
  fun _ => Except.ok [3, 7]

/-- Insert index `i` into a descending-by-score index list, placing `i`
before the first index of equal-or-smaller score — on ties the
later-inserted (larger) index lands first. -/
def insertAnti (scores : List ℚ) (i : Nat) : List Nat → List Nat
  | [] => [i]
  | j :: rest =>
      if scores.getD j 0 ≤ scores.getD i 0 then i :: j :: rest
      else j :: insertAnti scores i rest

/-- A sorting routine satisfying everything `np.argsort(-scores)`
guarantees (permutation, weakly descending scores), whose tie order is
the reverse of input order. -/
def argsortAnti (scores : List ℚ) : List Nat :=
  (List.range scores.length).foldl (fun acc i => insertAnti scores i acc) []

/-- The query `"ab"`: no token longer than 3 characters, hence no
keyword sub-queries. -/
def qAB : List Char := ['a', 'b']

/-- Two entries with ids 0 and 1, for the reranking fixtures. -/
def collC4 : Coll :=
  ⟨[⟨0, ['x'], [], 0⟩, ⟨1, ['y'], [], 1⟩]⟩

/-- Twenty-one entries with ids 0..20, for the hybrid-superset fixtures. -/
def collC5 : Coll :=
  ⟨(List.range 21).map (fun j => ⟨j, ['d'], [], (j : ℚ)⟩)⟩

/-- A 100-character chunk: long enough to survive the `< 100` filter. -/
def chunk100 : List Char := List.replicate 100 'a'

/-- Extraction oracle: `"bad.pdf"` yields 101 keepable chunks
(two batches, 100 + 1), any other file one keepable chunk. -/
def procC7 : String → List (List Char) :=
  fun f => if f = "bad.pdf" then List.replicate 101 chunk100 else [chunk100]

/-- A store whose second `add` call fails and all others succeed. -/
def addC7 : Nat → Batch → Except Unit Unit :=
  fun k _ => if k = 1 then Except.error () else Except.ok ()

/-- Extraction oracle for the witness: one keepable chunk per file. -/
def procW : String → List (List Char) := fun _ => [chunk100]

/-- A store whose every `add` call fails. -/
def addFail : Nat → Batch → Except Unit Unit := fun _ _ => Except.error ()

/-!  ## Dictionary lemmas -/

theorem dictGet_dictSet_self (d : Dict) (k : String) (v : MVal) :
    dictGet (dictSet d k v) k = some v := by
  induction d with
  | nil => simp [dictSet, dictGet]
  | cons hd tl ih =>
      obtain ⟨k', v'⟩ := hd
      by_cases h : k' = k
      · simp [dictSet, dictGet, h]
      · simp [dictSet, dictGet, h, ih]

theorem dictGet_dictSet_ne (d : Dict) (k k2 : String) (v : MVal)
    (h : k ≠ k2) : dictGet (dictSet d k v) k2 = dictGet d k2 := by
  induction d with
  | nil => simp [dictSet, dictGet, h]
  | cons hd tl ih =>
      obtain ⟨k', v'⟩ := hd
      by_cases h2 : k' = k
      · subst h2; simp [dictSet, dictGet, h]
      · simp [dictSet, dictGet, h2, ih]

/-!  ## Metadata lookups of the chunk constructors -/

theorem mkSubsection_type (st : List Char) (md : Dict) (p : ReMatch1 × Nat) :
    dictGet (mkSubsection st md p).metadata "type" = some (MVal.s strSubsection) := by
  simp only [mkSubsection, dictSets, List.foldl]
  rw [dictGet_dictSet_ne _ _ _ _ (by decide), dictGet_dictSet_ne _ _ _ _ (by decide),
    dictGet_dictSet_self]

theorem mkSubsection_ct (st : List Char) (md : Dict) (p : ReMatch1 × Nat) :
    dictGet (mkSubsection st md p).metadata "chunk_type" = dictGet md "chunk_type" := by
  simp only [mkSubsection, dictSets, List.foldl]
  rw [dictGet_dictSet_ne _ _ _ _ (by decide), dictGet_dictSet_ne _ _ _ _ (by decide),
    dictGet_dictSet_ne _ _ _ _ (by decide)]

theorem mkNumbered_type (st : List Char) (md : Dict) (p : ReMatch1 × Nat) :
    dictGet (mkNumbered st md p).metadata "type" = some (MVal.s strNumberedItem) := by
  simp only [mkNumbered, dictSets, List.foldl]
  rw [dictGet_dictSet_ne _ _ _ _ (by decide), dictGet_dictSet_ne _ _ _ _ (by decide),
    dictGet_dictSet_self]

theorem mkNumbered_ct (st : List Char) (md : Dict) (p : ReMatch1 × Nat) :
    dictGet (mkNumbered st md p).metadata "chunk_type" = dictGet md "chunk_type" := by
  simp only [mkNumbered, dictSets, List.foldl]
  rw [dictGet_dictSet_ne _ _ _ _ (by decide), dictGet_dictSet_ne _ _ _ _ (by decide),
    dictGet_dictSet_ne _ _ _ _ (by decide)]

theorem mkSentenceGroup_type (md : Dict) (g : List (List Char)) :
    dictGet (mkSentenceGroup md g).metadata "type" = some (MVal.s strSentenceGroup) := by
  simp only [mkSentenceGroup, dictSets, List.foldl]
  rw [dictGet_dictSet_ne _ _ _ _ (by decide), dictGet_dictSet_ne _ _ _ _ (by decide),
    dictGet_dictSet_self]

theorem mkSentenceGroup_ct (md : Dict) (g : List (List Char)) :
    dictGet (mkSentenceGroup md g).metadata "chunk_type" = dictGet md "chunk_type" := by
  simp only [mkSentenceGroup, dictSets, List.foldl]
  rw [dictGet_dictSet_ne _ _ _ _ (by decide), dictGet_dictSet_ne _ _ _ _ (by decide),
    dictGet_dictSet_ne _ _ _ _ (by decide)]

theorem mkCharChunk_ct (md : Dict) (t : List Char) (a b : Int) :
    dictGet (mkCharChunk md t a b).metadata "chunk_type" = some (MVal.s strCharacterChunk) := by
  simp only [mkCharChunk, dictSets, List.foldl]
  rw [dictGet_dictSet_ne _ _ _ _ (by decide), dictGet_dictSet_ne _ _ _ _ (by decide),
    dictGet_dictSet_ne _ _ _ _ (by decide), dictGet_dictSet_self]

theorem mkCharChunk_type (md : Dict) (t : List Char) (a b : Int) :
    dictGet (mkCharChunk md t a b).metadata "type" = dictGet md "type" := by
  simp only [mkCharChunk, dictSets, List.foldl]
  rw [dictGet_dictSet_ne _ _ _ _ (by decide), dictGet_dictSet_ne _ _ _ _ (by decide),
    dictGet_dictSet_ne _ _ _ _ (by decide), dictGet_dictSet_ne _ _ _ _ (by decide)]

/-!  ## Membership lemmas for the chunking pipeline -/

theorem collectSome_mem {α β : Type} (f : α → Option (List β)) :
    ∀ (xs : List α) (l : List β), collectSome f xs = some l →
      ∀ c ∈ l, ∃ x ∈ xs, ∃ lx, f x = some lx ∧ c ∈ lx := by
  intro xs
  induction xs with
  | nil =>
      intro l h c hc
      simp only [collectSome, Option.some.injEq] at h
      subst h; simp at hc
  | cons x xs ih =>
      intro l h c hc
      simp only [collectSome] at h
      cases hfx : f x with
      | none => rw [hfx] at h; exact absurd h (by simp)
      | some lx =>
          cases hrest : collectSome f xs with
          | none => rw [hfx, hrest] at h; exact absurd h (by simp)
          | some r =>
              rw [hfx, hrest] at h
              simp only [Option.some.injEq] at h
              subst h
              rcases List.mem_append.mp hc with hcl | hcr
              · exact ⟨x, List.mem_cons_self x xs, lx, hfx, hcl⟩
              · obtain ⟨y, hy, ly, hfy, hcy⟩ := ih r hrest c hcr
                exact ⟨y, List.mem_cons_of_mem x hy, ly, hfy, hcy⟩

theorem charLoop_mem (t : List Char) (md : Dict) (cs co : Nat) :
    ∀ (fuel : Nat) (start : Int) (l : List Chunk),
      charLoop t md cs co fuel start = some l →
      ∀ c ∈ l, ∃ a b, c = mkCharChunk md t a b := by
  intro fuel
  induction fuel with
  | zero => intro s l h; simp [charLoop] at h
  | succ n ih =>
      intro s l h c hc
      simp only [charLoop] at h
      split at h
      · split at h
        · split at h
          · simp only [Option.some.injEq] at h
            subst h
            rcases List.mem_singleton.mp hc with rfl
            exact ⟨_, _, rfl⟩
          · rcases Option.map_eq_some'.mp h with ⟨rest, hrest, hl⟩
            subst hl
            rcases List.mem_cons.mp hc with rfl | hcr
            · exact ⟨_, _, rfl⟩
            · exact ih _ rest hrest c hcr
        · split at h
          · simp only [Option.some.injEq] at h
            subst h
            rcases List.mem_singleton.mp hc with rfl
            exact ⟨_, _, rfl⟩
          · rcases Option.map_eq_some'.mp h with ⟨rest, hrest, hl⟩
            subst hl
            rcases List.mem_cons.mp hc with rfl | hcr
            · exact ⟨_, _, rfl⟩
            · exact ih _ rest hrest c hcr
      · simp only [Option.some.injEq] at h
        subst h; simp at hc

theorem groupSentences_mem (cs : Nat) (md : Dict) :
    ∀ (ss group : List (List Char)) (clen : Nat),
      ∀ c ∈ groupSentences cs md ss group clen, ∃ g, c = mkSentenceGroup md g := by
  intro ss
  induction ss with
  | nil =>
      intro group clen c hc
      simp only [groupSentences] at hc
      split at hc
      · rcases List.mem_singleton.mp hc with rfl; exact ⟨group, rfl⟩
      · simp at hc
  | cons sRaw rest ih =>
      intro group clen c hc
      simp only [groupSentences] at hc
      split at hc
      · rcases List.mem_cons.mp hc with rfl | hcr
        · exact ⟨group, rfl⟩
        · exact ih _ _ c hcr
      · exact ih _ _ c hc

theorem subsectionsOf_mem (o : TextOracles) (cs : Nat) (sec : Chunk) :
    ∀ c ∈ subsectionsOf o cs sec,
      (dictGet c.metadata "type" = some (MVal.s strSubsection) ∨
        dictGet c.metadata "type" = some (MVal.s strNumberedItem) ∨
        dictGet c.metadata "type" = some (MVal.s strSentenceGroup)) ∧
      dictGet c.metadata "chunk_type" = dictGet sec.metadata "chunk_type" := by
  intro c hc
  simp only [subsectionsOf] at hc
  split at hc
  · rcases List.mem_map.mp hc with ⟨p, _, rfl⟩
    exact ⟨Or.inl (mkSubsection_type _ _ _), mkSubsection_ct _ _ _⟩
  · split at hc
    · rcases List.mem_map.mp hc with ⟨p, _, rfl⟩
      exact ⟨Or.inr (Or.inl (mkNumbered_type _ _ _)), mkNumbered_ct _ _ _⟩
    · obtain ⟨g, rfl⟩ := groupSentences_mem cs sec.metadata _ _ _ c hc
      exact ⟨Or.inr (Or.inr (mkSentenceGroup_type _ _)), mkSentenceGroup_ct _ _⟩

theorem sectionsOf_mem (o : TextOracles) (t : List Char) :
    ∀ c ∈ sectionsOf o t,
      (dictGet c.metadata "type" = some (MVal.s strLegalSection) ∨
        dictGet c.metadata "type" = some (MVal.s strParagraph) ∨
        dictGet c.metadata "type" = some (MVal.s strFullText)) ∧
      dictGet c.metadata "chunk_type" = none := by
  intro c hc
  simp only [sectionsOf] at hc
  split at hc
  · rcases List.mem_map.mp hc with ⟨p, _, rfl⟩
    exact ⟨Or.inl rfl, rfl⟩
  · split at hc
    · rcases List.mem_map.mp hc with ⟨p, _, rfl⟩
      exact ⟨Or.inr (Or.inl rfl), rfl⟩
    · rcases List.mem_singleton.mp hc with rfl
      exact ⟨Or.inr (Or.inr rfl), rfl⟩

/-- Master case analysis: every chunk `_chunk_text` puts into
`chunks_with_metadata` is either a fallback `character_chunk` carrying
its parent subsection's `type`, or a non-fallback chunk (no `chunk_type`
key) that fits in `chunk_size` unless it is a `short_fragment` (input
text shorter than 100 characters). -/
theorem chunkTextMeta_shape (o : TextOracles) (texts : List (List Char))
    (cs co fuel : Nat) (l : List Chunk)
    (h : chunkTextMeta o texts cs co fuel = some l) :
    ∀ c ∈ l,
      (dictGet c.metadata "chunk_type" = some (MVal.s strCharacterChunk) ∧
        (dictGet c.metadata "type" = some (MVal.s strSubsection) ∨
          dictGet c.metadata "type" = some (MVal.s strNumberedItem) ∨
          dictGet c.metadata "type" = some (MVal.s strSentenceGroup))) ∨
      (dictGet c.metadata "chunk_type" = none ∧
        (dictGet c.metadata "type" = some (MVal.s strShortFragment) ∨
          dictGet c.metadata "type" = some (MVal.s strLegalSection) ∨
          dictGet c.metadata "type" = some (MVal.s strParagraph) ∨
          dictGet c.metadata "type" = some (MVal.s strFullText) ∨
          dictGet c.metadata "type" = some (MVal.s strSubsection) ∨
          dictGet c.metadata "type" = some (MVal.s strNumberedItem) ∨
          dictGet c.metadata "type" = some (MVal.s strSentenceGroup)) ∧
        (c.text.length ≤ cs ∨
          (dictGet c.metadata "type" = some (MVal.s strShortFragment) ∧
            c.text.length < 100))) := by
  intro c hc
  obtain ⟨t, _, lt, hlt, hct⟩ := collectSome_mem _ texts l h c hc
  simp only [processText] at hlt
  split at hlt
  · -- short fragment
    rename_i h100
    simp only [Option.some.injEq] at hlt
    subst hlt
    rcases List.mem_singleton.mp hct with rfl
    exact Or.inr ⟨rfl, Or.inl rfl, Or.inr ⟨rfl, h100⟩⟩
  · obtain ⟨sec, hsec, ls, hls, hcs⟩ := collectSome_mem _ _ lt hlt c hct
    obtain ⟨hsecTy, hsecCt⟩ := sectionsOf_mem o t sec hsec
    simp only [processSection] at hls
    split at hls
    · -- small section passed through
      rename_i hfit
      simp only [Option.some.injEq] at hls
      subst hls
      rcases List.mem_singleton.mp hcs with rfl
      refine Or.inr ⟨hsecCt, ?_, Or.inl hfit⟩
      rcases hsecTy with h1 | h1 | h1
      · exact Or.inr (Or.inl h1)
      · exact Or.inr (Or.inr (Or.inl h1))
      · exact Or.inr (Or.inr (Or.inr (Or.inl h1)))
    · obtain ⟨sub, hsub, lu, hlu, hcu⟩ := collectSome_mem _ _ ls hls c hcs
      obtain ⟨hsubTy, hsubCt⟩ := subsectionsOf_mem o cs sec sub hsub
      rw [hsecCt] at hsubCt
      simp only [processSubsec] at hlu
      split at hlu
      · -- small subsection passed through
        rename_i hfit
        simp only [Option.some.injEq] at hlu
        subst hlu
        rcases List.mem_singleton.mp hcu with rfl
        refine Or.inr ⟨hsubCt, ?_, Or.inl hfit⟩
        rcases hsubTy with h1 | h1 | h1
        · exact Or.inr (Or.inr (Or.inr (Or.inr (Or.inl h1))))
        · exact Or.inr (Or.inr (Or.inr (Or.inr (Or.inr (Or.inl h1)))))
        · exact Or.inr (Or.inr (Or.inr (Or.inr (Or.inr (Or.inr h1)))))
      · -- fixed-width fallback
        obtain ⟨a, b, rfl⟩ := charLoop_mem _ _ cs co fuel 0 lu hlu c hcu
        rw [mkCharChunk_type] at *
        exact Or.inl ⟨mkCharChunk_ct _ _ _ _, hsubTy⟩

/-- **C1** (corrected).  As stated the claim fails (see
`size_bound_counterexample`: an input text shorter than 100 characters is
passed through as a `short_fragment` regardless of `chunk_size`, per
spec §4.1).  Amended: for every oracle behaviour, every input list and
all parameters, every chunk produced by `_chunk_text` that is not a
fallback `character_chunk` has text of length at most `chunk_size`, or
is a `short_fragment` — the sole, unsplit pass-through of an input text
shorter than 100 characters. -/
theorem size_bound_amended (o : TextOracles) (texts : List (List Char))
    (cs co fuel : Nat) (l : List Chunk)
    (h : chunkTextMeta o texts cs co fuel = some l) (c : Chunk) (hc : c ∈ l)
    (hnc : dictGet c.metadata "chunk_type" ≠ some (MVal.s strCharacterChunk)) :
    c.text.length ≤ cs ∨
      (dictGet c.metadata "type" = some (MVal.s strShortFragment) ∧
        c.text.length < 100) := by
  rcases chunkTextMeta_shape o texts cs co fuel l h c hc with ⟨hct, _⟩ | ⟨_, _, hlen⟩
  · exact absurd hct hnc
  · exact hlen

/-- Witness for `size_bound_amended` at `texts = [tC1]`, `chunk_size = 10`,
`chunk_overlap = 0`. -/
theorem size_bound_witness :
    cSF.text.length ≤ 10 ∨
      (dictGet cSF.metadata "type" = some (MVal.s strShortFragment) ∧
        cSF.text.length < 100) :=
  size_bound_amended oracleA [tC1] 10 0 1 [cSF] (by decide) cSF (by decide)
    (by decide)

/-- **C1 counterexample.**  With `texts = [tC1]` (50 characters of `'a'`,
matching no split pattern), `chunk_size = 10 > 0` and `chunk_overlap = 0`,
`_chunk_text` produces exactly one chunk: the whole input text tagged
`short_fragment`, not a `character_chunk`, of length `50 > chunk_size`.
Its source unit is the whole input text, of length `50 ≥ chunk_size`, so
the chunk is not the pass-through of a unit already smaller than
`chunk_size`, and the claim's exception does not apply. -/
theorem size_bound_counterexample :
    chunkTextMeta oracleA [tC1] 10 0 1 = some [cSF] ∧
    cSF.text = tC1 ∧
    dictGet cSF.metadata "chunk_type" = none ∧
    10 < cSF.text.length ∧ ¬ tC1.length < 10 := by
  refine ⟨by decide, by decide, by decide, by decide, by decide⟩

/-- **C9** (confirmed).  Every chunk produced by `_chunk_text` keeps the
value `"character_chunk"` out of the metadata key `"type"`; a fallback
chunk (identified by `chunk_type = "character_chunk"`) carries its
ancestor subsection's type (`subsection`, `numbered_item` or
`sentence_group`) under `"type"`. -/
theorem type_key_not_character_chunk (o : TextOracles)
    (texts : List (List Char)) (cs co fuel : Nat) (l : List Chunk)
    (h : chunkTextMeta o texts cs co fuel = some l) (c : Chunk) (hc : c ∈ l) :
    dictGet c.metadata "type" ≠ some (MVal.s strCharacterChunk) ∧
      (dictGet c.metadata "chunk_type" = some (MVal.s strCharacterChunk) →
        dictGet c.metadata "type" = some (MVal.s strSubsection) ∨
          dictGet c.metadata "type" = some (MVal.s strNumberedItem) ∨
          dictGet c.metadata "type" = some (MVal.s strSentenceGroup)) := by
  rcases chunkTextMeta_shape o texts cs co fuel l h c hc with
    ⟨hct, hty⟩ | ⟨hct, hty, _⟩
  · refine ⟨?_, fun _ => hty⟩
    rcases hty with h1 | h1 | h1 <;> rw [h1] <;>
      intro hbad <;> exact absurd hbad (by decide)
  · refine ⟨?_, fun hbad => absurd (hct ▸ hbad) (by decide)⟩
    rcases hty with h1 | h1 | h1 | h1 | h1 | h1 | h1 <;> rw [h1] <;>
      intro hbad <;> exact absurd hbad (by decide)

/-- Witness for `type_key_not_character_chunk` at `texts = [tC1]`. -/
theorem type_key_witness :
    dictGet cSF.metadata "type" ≠ some (MVal.s strCharacterChunk) ∧
      (dictGet cSF.metadata "chunk_type" = some (MVal.s strCharacterChunk) →
        dictGet cSF.metadata "type" = some (MVal.s strSubsection) ∨
          dictGet cSF.metadata "type" = some (MVal.s strNumberedItem) ∨
          dictGet cSF.metadata "type" = some (MVal.s strSentenceGroup)) :=
  type_key_not_character_chunk oracleA [tC1] 10 0 1 [cSF] (by decide) cSF
    (by decide)

/-- **C8** (confirmed).  `_chunk_text` is deterministic: with the same
library behaviour (the `re`/`nltk` oracles are fixed pure functions),
the same input list and the same parameters, two calls yield the same
chunk list — same boundaries, same metadata.  The embedding is a pure
function of exactly these inputs: the source uses no randomness, clock
or ambient state. -/
theorem chunk_deterministic (o : TextOracles) (texts : List (List Char))
    (cs co fuel : Nat) (r1 r2 : Option (List Chunk))
    (h1 : chunkTextMeta o texts cs co fuel = r1)
    (h2 : chunkTextMeta o texts cs co fuel = r2) : r1 = r2 :=
  h1 ▸ h2 ▸ rfl

/-- Witness for `chunk_deterministic` at a concrete input. -/
theorem chunk_deterministic_witness :
    some [cSF] = (some [cSF] : Option (List Chunk)) :=
  chunk_deterministic oracleA [tC1] 10 0 1 (some [cSF]) (some [cSF])
    (by decide) (by decide)

/-- **C2** (code bug).  The fallback's backward scan begins at `i = 0`,
i.e. at `subsec_text[end]`, one position *past* the raw window
`[start, start + chunk_size)`; when that character is a sentence
terminal and `chunk_overlap ≥ 1`, `end` becomes `end + 1` and the
emitted `character_chunk` has `chunk_size + 1` characters — here, on
`tC2` (a `'\n'` at index 5) with `chunk_size = 5`, `chunk_overlap = 1`,
the first fallback chunk is the 6-character slice `tC2[0:6]`, violating
the claimed bound and the function's own docstring
("chunk_size: Maximum chunk size"). -/
theorem character_chunk_overshoot :
    (chunkTextMeta oracleA [tC2] 5 1 50).isSome = true ∧
    ((chunkTextMeta oracleA [tC2] 5 1 50).getD []).head?.map
        (fun c => (c.text, dictGet c.metadata "chunk_type", c.text.length)) =
      some (tC2.take 6, some (MVal.s strCharacterChunk), 6) ∧
    5 < ((((chunkTextMeta oracleA [tC2] 5 1 50).getD []).headD cSF).text).length := by
  refine ⟨by decide, by decide, by decide⟩

/-!  ## Termination of the fixed-width fallback (C3) -/

theorem scanEnd_cases (t : List Char) (co : Nat) (e : Int) :
    scanEnd t co e = e ∨
      (e - (min 100 co : Nat) + 2 ≤ scanEnd t co e ∧ scanEnd t co e ≤ e + 1) := by
  unfold scanEnd
  cases hf : (List.range (min 100 co)).find?
      (fun i : Nat =>
        decide (0 < e - (i : Int)) && isTerminal (t.getD (e - (i : Int)).toNat ' ')) with
  | none => exact Or.inl rfl
  | some i =>
      right
      dsimp only
      have hi := List.mem_range.mp (List.mem_of_find?_eq_some hf)
      constructor <;> omega

theorem charLoop_isSome (t : List Char) (md : Dict) (cs co : Nat)
    (hco : co < cs) (hmin : co + min 100 co ≤ cs + 1) :
    ∀ (fuel : Nat) (start : Int), ((t.length : Int) - start).toNat < fuel →
      (charLoop t md cs co fuel start).isSome := by
  intro fuel
  induction fuel with
  | zero => intro s hs; omega
  | succ n ih =>
      intro s hs
      simp only [charLoop]
      split
      · rename_i hlt
        split
        · rename_i hecut
          split
          · simp
          · rename_i hcont
            simp only [Option.isSome_map']
            apply ih
            rcases scanEnd_cases t co (s + (cs : Int)) with heq | ⟨hlo, _⟩
            · rw [heq] at hcont ⊢; omega
            · omega
        · split
          · simp
          · rename_i hcont
            simp only [Option.isSome_map']
            apply ih
            omega
      · simp

theorem collectSome_isSome {α β : Type} (f : α → Option (List β)) :
    ∀ xs : List α, (∀ x ∈ xs, (f x).isSome) → (collectSome f xs).isSome := by
  intro xs
  induction xs with
  | nil => intro _; simp [collectSome]
  | cons x xs ih =>
      intro hall
      simp only [collectSome]
      obtain ⟨lx, hlx⟩ := Option.isSome_iff_exists.mp (hall x (List.mem_cons_self x xs))
      obtain ⟨r, hr⟩ := Option.isSome_iff_exists.mp
        (ih (fun y hy => hall y (List.mem_cons_of_mem x hy)))
      rw [hlx, hr]
      simp

theorem le_foldr_max : ∀ (l : List Nat) (x : Nat), x ∈ l → x ≤ l.foldr max 0 := by
  intro l
  induction l with
  | nil => simp
  | cons h t ih =>
      intro x hx
      rcases List.mem_cons.mp hx with rfl | hx
      · exact le_max_left _ _
      · exact le_trans (ih x hx) (le_max_right _ _)

/-- **C3** (corrected).  As stated — termination for every
`chunk_size > 0` and `chunk_overlap ≥ 0` — the claim fails (see
`chunk_nontermination_counterexample`).  Amended: `_chunk_text`
terminates on every input whenever `chunk_overlap < chunk_size` and
`chunk_overlap + min(100, chunk_overlap) ≤ chunk_size + 1` (these make
the fallback window start strictly increase each iteration; the default
parameters 1000/200 satisfy them): some finite fuel makes every
fallback loop finish. -/
theorem chunk_terminates_amended (o : TextOracles) (texts : List (List Char))
    (cs co : Nat) (hco : co < cs) (hmin : co + min 100 co ≤ cs + 1) :
    ∃ fuel, (chunkTextMeta o texts cs co fuel).isSome := by
  refine ⟨fuelNeeded o cs texts, ?_⟩
  apply collectSome_isSome
  intro t ht
  unfold processText
  split
  · simp
  · rename_i h100
    apply collectSome_isSome
    intro sec hsec
    unfold processSection
    split
    · simp
    · rename_i hbig
      apply collectSome_isSome
      intro sub hsub
      unfold processSubsec
      split
      · simp
      · apply charLoop_isSome _ _ _ _ hco hmin
        have hmem : sub ∈ subsecsOf o cs texts := by
          unfold subsecsOf
          rw [List.mem_flatMap]
          refine ⟨t, ht, ?_⟩
          rw [if_neg h100, List.mem_flatMap]
          exact ⟨sec, hsec, by rw [if_neg hbig]; exact hsub⟩
        have hle : sub.text.length ≤
            ((subsecsOf o cs texts).map (fun c => c.text.length)).foldr max 0 :=
          le_foldr_max _ _ (List.mem_map_of_mem _ hmem)
        unfold fuelNeeded
        omega

/-- Witness for `chunk_terminates_amended` at `chunk_size = 3`,
`chunk_overlap = 1`. -/
theorem chunk_terminates_witness :
    ∃ fuel, (chunkTextMeta oracleA [tC1] 3 1 fuel).isSome :=
  chunk_terminates_amended oracleA [tC1] 3 1 (by decide) (by decide)

theorem charLoop_tC3_none (md : Dict) :
    ∀ fuel : Nat, charLoop tC3 md 5 5 fuel 0 = none := by
  intro fuel
  induction fuel with
  | zero => rfl
  | succ n ih =>
      have hstep : charLoop tC3 md 5 5 (n + 1) 0 =
          (charLoop tC3 md 5 5 n 0).map
            (fun rest => mkCharChunk md tC3 0 5 :: rest) := rfl
      rw [hstep, ih]
      rfl

theorem chunkTextMeta_tC3_none (fuel : Nat) :
    chunkTextMeta oracleA [tC3] 5 5 fuel = none := by
  have e1 : sectionsOf oracleA tC3 = [cFT] := by decide
  have e2 : subsectionsOf oracleA 5 cFT = [cSG] := by decide
  have e5 : processSubsec 5 5 fuel cSG = none := by
    unfold processSubsec
    rw [if_neg (by decide)]
    exact charLoop_tC3_none _ fuel
  have e4 : processSection oracleA 5 5 fuel cFT = none := by
    unfold processSection
    rw [if_neg (by decide), e2]
    simp [collectSome, e5]
  have e3 : processText oracleA 5 5 fuel tC3 = none := by
    unfold processText
    rw [if_neg (by decide), e1]
    simp [collectSome, e4]
  simp [chunkTextMeta, collectSome, e3]

/-- **C3 counterexample.**  With `texts = [tC3]` (100 characters of `'a'`,
no sentence terminal), `chunk_size = 5 > 0` and `chunk_overlap = 5`, the
single oversized sentence group reaches the fallback, whose window start
is recomputed as `end - chunk_overlap = 0` every iteration: no amount of
fuel completes the run, i.e. the Python loop runs forever. -/
theorem chunk_nontermination_counterexample :
    (∃ fuel, (chunkTextMeta oracleA [tC3] 5 5 fuel).isSome) = False := by
  apply eq_false
  rintro ⟨fuel, h⟩
  rw [chunkTextMeta_tC3_none fuel] at h
  simp at h

/-!  ## Reranking (C6, C4) -/

/-- **C6** (confirmed).  If the cross-encoder raises on every scoring
call (the model load and `predict` both live inside the `try`), then
`query_dataset(..., use_reranking=True)` returns exactly what
`use_reranking=False` returns on the same hybrid candidate set: the
exception is caught inside `query_dataset` (logged, never re-raised)
and the merged results are returned unchanged, with all parallel arrays
in the pre-rerank order. -/
theorem rerank_fail_open (c : Coll) (q : List Char) (n : Nat)
    (argsort : List ℚ → List Nat)
    (predict : List (List Char × List Char) → Except Unit (List ℚ))
    (hp : ∀ ps, predict ps = Except.error ()) :
    queryDataset c q n true true predict argsort =
      queryDataset c q n true false predict argsort := by
  show rerankStep q n predict argsort (hybridMerge c q n) = hybridMerge c q n
  unfold rerankStep
  split_ifs with h1 h2
  · rw [hp]
  · rfl
  · rfl

/-- Witness for `rerank_fail_open` with a concrete collection. -/
theorem rerank_fail_open_witness :
    queryDataset collC5 qAB 1 true true predictErr argsortAnti =
      queryDataset collC5 qAB 1 true false predictErr argsortAnti :=
  rerank_fail_open collC5 qAB 1 argsortAnti predictErr (fun _ => rfl)

/-- **C4** (corrected).  As stated the claim fails: ties are *not*
broken by the pre-rerank order (see `rerank_stability_counterexample`) —
`np.argsort` is called with its default unstable quicksort.  Amended:
whenever reranking applies (candidate count exceeds `n_results`) and the
cross-encoder succeeds, the result is the merged candidate structure
reordered by the index permutation `np.argsort` returns on the negated
scores, truncated to `n_results`: `documents`, `ids`, `metadatas` and
`distances` are all reordered by that same permutation, and the output
is ordered by weakly descending cross-encoder score; the relative order
of tied scores is whatever `np.argsort` yields. -/
theorem rerank_order_amended (c : Coll) (q : List Char) (n : Nat)
    (predict : List (List Char × List Char) → Except Unit (List ℚ))
    (argsort : List ℚ → List Nat) (scores : List ℚ)
    (hlen : n < (hybridMerge c q n).documents.length)
    (hp : predict ((hybridMerge c q n).documents.map (fun d => (q, d))) =
      Except.ok scores)
    (hs : ArgsortSpec scores (argsort scores)) :
    queryDataset c q n true true predict argsort =
      { documents := ((argsort scores).take n).map
          (fun i => (hybridMerge c q n).documents.getD i []),
        ids := ((argsort scores).take n).map
          (fun i => (hybridMerge c q n).ids.getD i 0),
        metadatas := ((argsort scores).take n).map
          (fun i => (hybridMerge c q n).metadatas.getD i []),
        distances :=
          match (hybridMerge c q n).distances with
          | some ds =>
              some (((argsort scores).take n).map (fun i => ds.getD i 0))
          | none => none } ∧
    ((argsort scores).take n).Pairwise
      (fun i j => scores.getD j 0 ≤ scores.getD i 0) := by
  constructor
  · show rerankStep q n predict argsort (hybridMerge c q n) = _
    unfold rerankStep
    rw [if_pos (by omega), if_pos hlen, hp]
  · exact List.Pairwise.sublist (List.take_sublist _ _) hs.2

/-- Witness for `rerank_order_amended`: two candidates with distinct
scores `3 < 7`, `n_results = 1`. -/
theorem rerank_order_witness :
    ((argsortAnti [3, 7]).take 1).Pairwise
      (fun i j => ([3, 7] : List ℚ).getD j 0 ≤ ([3, 7] : List ℚ).getD i 0) :=
  (rerank_order_amended collC4 qAB 1 predictW argsortAnti [3, 7]
    (by decide) rfl ⟨by decide, by decide⟩).2

/-- **C4 counterexample.**  `argsortAnti` satisfies everything
`np.argsort(-scores)` guarantees (`ArgsortSpec`): it is a permutation of
`range(len)` sorted by weakly descending score — but on ties it lists
the later candidate first.  With two candidates (pre-rerank id order
`[0, 1]`), tied cross-encoder scores `[5, 5]` and `n_results = 1`,
reranking applies (2 > 1) and returns id `[1]`, whereas a stable
tie-break (the claim) demands `[0]`. -/
theorem rerank_stability_counterexample :
    ArgsortSpec [5, 5] (argsortAnti [5, 5]) ∧
    (hybridMerge collC4 qAB 1).ids = [0, 1] ∧
    1 < (hybridMerge collC4 qAB 1).documents.length ∧
    (queryDataset collC4 qAB 1 true true predictTie argsortAnti).ids = [1] := by
  refine ⟨⟨by decide, by decide⟩, by decide, by decide, by decide⟩

/-!  ## Hybrid search (C5, C10) -/

theorem foldl_pres {α β : Type} (P : α → Prop) (f : α → β → α)
    (hf : ∀ a b, P a → P (f a b)) :
    ∀ (l : List β) (a : α), P a → P (l.foldl f a) := by
  intro l
  induction l with
  | nil => intro a ha; exact ha
  | cons x xs ih => intro a ha; exact ih _ (hf a x ha)

theorem appendHit_mem (kres acc : QRes) (i : Nat) (x : Nat)
    (hx : x ∈ acc.ids) : x ∈ (appendHit kres acc i).ids := by
  unfold appendHit
  dsimp only
  split_ifs with h
  · exact hx
  · exact List.mem_append_left _ hx

theorem mergeKeyword_mem (c : Coll) (n : Nat) (acc : QRes) (kw : List Char)
    (x : Nat) (hx : x ∈ acc.ids) : x ∈ (mergeKeyword c n acc kw).ids := by
  unfold mergeKeyword
  dsimp only
  split_ifs with h
  · exact foldl_pres (fun r => x ∈ r.ids) _
      (fun a b ha => appendHit_mem _ a b x ha) _ acc hx
  · exact hx

theorem hybridMerge_mem (c : Coll) (q : List Char) (n : Nat) (x : Nat)
    (hx : x ∈ (collQuery c (min (n * 2) 20)).ids) :
    x ∈ (hybridMerge c q n).ids := by
  unfold hybridMerge
  dsimp only
  split_ifs with h
  · exact foldl_pres (fun r => x ∈ r.ids) _
      (fun a b ha => mergeKeyword_mem c n a b x ha) _ _ hx
  · exact hx

/-- **C5** (corrected).  As stated the claim fails for `n_results > 20`
(see `hybrid_superset_counterexample`): the hybrid vector stage only
fetches `min(n_results * 2, 20)` candidates.  Amended: for every
collection state and query, if `n_results ≤ 20`, no keyword sub-query
fails, and reranking is disabled (reranking truncates the merged list
to `n_results` and may otherwise drop vector hits), the id set returned
with `use_hybrid_search=True` is a superset of the id set returned with
`use_hybrid_search=False`. -/
theorem hybrid_superset_amended (c : Coll) (q : List Char) (n : Nat)
    (predict : List (List Char × List Char) → Except Unit (List ℚ))
    (argsort : List ℚ → List Nat) (hn : n ≤ 20) :
    (queryDataset c q n false false predict argsort).ids ⊆
      (queryDataset c q n true false predict argsort).ids := by
  intro x hx
  have hx' : x ∈ (collQuery c n).ids := hx
  have hmem : x ∈ (c.entries.take (min (n * 2) 20)).map Entry.eid := by
    have h1 : c.entries.take n = (c.entries.take (min (n * 2) 20)).take n := by
      rw [List.take_take, min_eq_left (by omega)]
    have h2 : x ∈ (c.entries.take n).map Entry.eid := hx'
    rw [h1] at h2
    exact ((List.take_sublist _ _).map _).subset h2
  show x ∈ (hybridMerge c q n).ids
  exact hybridMerge_mem c q n x hmem

/-- Witness for `hybrid_superset_amended` at `n_results = 3` on a
21-entry collection. -/
theorem hybrid_superset_witness :
    (queryDataset collC5 qAB 3 false false predictErr argsortAnti).ids ⊆
      (queryDataset collC5 qAB 3 true false predictErr argsortAnti).ids :=
  hybrid_superset_amended collC5 qAB 3 predictErr argsortAnti (by decide)

/-- **C5 counterexample.**  On a 21-entry collection with the query
`"ab"` (no keyword longer than 3 characters, so no keyword sub-query
runs and none fails) and `n_results = 21`: vector-only search returns
ids 0..20, but hybrid search fetches only `min(42, 20) = 20` vector
candidates (reranking, though enabled by default, does not apply since
20 ≤ 21), so id 20 is missing — the hybrid id set is not a superset. -/
theorem hybrid_superset_counterexample :
    20 ∈ (queryDataset collC5 qAB 21 false true predictErr argsortAnti).ids ∧
    20 ∉ (queryDataset collC5 qAB 21 true true predictErr argsortAnti).ids := by
  refine ⟨by decide, by decide⟩

theorem appendHit_nodup (kres acc : QRes) (i : Nat) (h : acc.ids.Nodup) :
    (appendHit kres acc i).ids.Nodup := by
  unfold appendHit
  dsimp only
  split_ifs with hmem
  · exact h
  · refine List.Nodup.append h (List.nodup_singleton _) ?_
    simpa [List.disjoint_singleton] using hmem

theorem mergeKeyword_nodup (c : Coll) (n : Nat) (acc : QRes) (kw : List Char)
    (h : acc.ids.Nodup) : (mergeKeyword c n acc kw).ids.Nodup := by
  unfold mergeKeyword
  dsimp only
  split_ifs with hk
  · exact foldl_pres (fun r => r.ids.Nodup) _
      (fun a b ha => appendHit_nodup _ a b ha) _ acc h
  · exact h

/-- **C10** (confirmed).  If the collection's ids are pairwise distinct
(so every store response lists distinct ids), the merged hybrid result
of `query_dataset` has pairwise-distinct ids: keyword hits are appended
into the very list the membership test consults, so a keyword hit is
skipped when its id equals any vector hit's id or any previously
appended keyword-only id, across all keywords. -/
theorem hybrid_ids_nodup (c : Coll) (q : List Char) (n : Nat)
    (h : (c.entries.map Entry.eid).Nodup) : (hybridMerge c q n).ids.Nodup := by
  have hinit : ((c.entries.take (min (n * 2) 20)).map Entry.eid).Nodup :=
    List.Nodup.sublist ((List.take_sublist _ _).map _) h
  unfold hybridMerge
  dsimp only
  split_ifs with hk
  · apply foldl_pres (fun r => r.ids.Nodup) _
      (fun a b ha => mergeKeyword_nodup c n a b ha)
    exact hinit
  · exact hinit

/-- Witness for `hybrid_ids_nodup` on the 21-entry collection. -/
theorem hybrid_ids_nodup_witness : (hybridMerge collC5 qAB 3).ids.Nodup :=
  hybrid_ids_nodup collC5 qAB 3 (by decide)

/-!  ## Batch indexing (C7) -/

theorem addBatchSeq_fail (addO : Nat → Batch → Except Unit Unit) :
    ∀ (bs : List Batch) (k k0 : Nat) (store : List Batch),
      k < bs.length →
      (∀ j, j < k → addO (k0 + j) (bs.getD j emptyBatch) = Except.ok ()) →
      addO (k0 + k) (bs.getD k emptyBatch) = Except.error () →
      addBatchSeq addO k0 store bs = (k0 + k + 1, store ++ bs.take k, false) := by
  intro bs
  induction bs with
  | nil => intro k k0 store hk; simp at hk
  | cons b bs ih =>
      intro k k0 store hk hok hfail
      cases k with
      | zero =>
          have hfail0 : addO k0 b = Except.error () := by simpa using hfail
          simp only [addBatchSeq, hfail0]
          simp
      | succ k' =>
          have h0 : addO k0 b = Except.ok () := by
            simpa using hok 0 (Nat.succ_pos k')
          simp only [addBatchSeq, h0]
          rw [ih k' (k0 + 1) (store ++ [b]) (by simpa using hk)
            (fun j hj => by
              have := hok (j + 1) (by omega)
              simpa [Nat.add_assoc, Nat.add_comm 1 j] using this)
            (by
              have := hfail
              simpa [Nat.add_assoc, Nat.add_comm 1 k'] using this)]
          simp [List.take_succ_cons, List.append_assoc]
          omega

/-- **C7** (corrected).  As stated the claim fails: the error is *not*
surfaced to the caller (see `store_write_counterexample`) — the whole
per-document body of `create_dataset` sits in a `try` whose `except`
prints and continues.  Amended: when the `k`-th batch add of a document
fails (after `k` successful adds), `create_dataset` returns normally;
indexing of that document is aborted — its later batches are never
attempted and it contributes nothing to the returned
`(doc_count, chunk_count)` — while the `k` batches committed before the
failure remain committed (no rollback, no cross-batch transaction). -/
theorem store_write_absorbed_amended
    (processDocO : String → List (List Char))
    (metaO : String → Nat → List Char → Dict)
    (idO : String → Nat → List Char)
    (addO : Nat → Batch → Except Unit Unit) (f : String) (k : Nat)
    (hk : k < (batchesOf processDocO metaO idO f).length)
    (hok : ∀ j, j < k →
      addO j ((batchesOf processDocO metaO idO f).getD j emptyBatch) =
        Except.ok ())
    (hfail : addO k ((batchesOf processDocO metaO idO f).getD k emptyBatch) =
      Except.error ()) :
    createDataset processDocO metaO idO addO [f] =
      (k + 1, (batchesOf processDocO metaO idO f).take k, 0, 0) := by
  show indexFile processDocO metaO idO addO (0, [], 0, 0) f = _
  unfold indexFile
  dsimp only
  split_ifs with hz
  · exfalso
    have hempty : keptOf processDocO f = [] := by
      unfold keptOf
      have : processDocO f = [] := List.length_eq_zero.mp hz
      simp [this]
    have : batchesOf processDocO metaO idO f = [] := by
      unfold batchesOf
      rw [hempty]
      simp [mkBatches, mkBatchesAux]
    rw [this] at hk
    simp at hk
  · rw [addBatchSeq_fail addO _ k 0 [] hk (by simpa using hok)
      (by simpa using hfail)]
    simp

/-- Witness for `store_write_absorbed_amended`: a single one-batch
document whose only add call fails; `create_dataset` returns normally
with nothing committed and zero counts. -/
theorem store_write_absorbed_witness :
    createDataset procW (fun _ _ _ => []) (fun _ _ => []) addFail
        ["doc.pdf"] =
      (1, [], 0, 0) :=
  store_write_absorbed_amended procW (fun _ _ _ => []) (fun _ _ => [])
    addFail "doc.pdf" 0 (by decide) (fun j hj => absurd hj (Nat.not_lt_zero j))
    rfl

/-- **C7 counterexample.**  `"bad.pdf"` yields 101 keepable chunks, i.e.
two batches (100 + 1); the store's second add call (index 1) fails.  The
run returns a *normal* value — nothing is surfaced to the caller of
`create_dataset` — with `doc_count = chunk_count` counting only the
subsequent `"good.pdf"`; the failing document's first batch (100
documents) remains committed, its second batch is never committed, and
the loop continues to the next file. -/
theorem store_write_counterexample :
    (createDataset procC7 (fun _ _ _ => []) (fun _ _ => []) addC7
        ["bad.pdf", "good.pdf"]).2.2 = (1, 1) ∧
    (createDataset procC7 (fun _ _ _ => []) (fun _ _ => []) addC7
        ["bad.pdf", "good.pdf"]).2.1.length = 2 ∧
    ((createDataset procC7 (fun _ _ _ => []) (fun _ _ => []) addC7
        ["bad.pdf", "good.pdf"]).2.1.getD 0 emptyBatch).docs.length = 100 ∧
    ((createDataset procC7 (fun _ _ _ => []) (fun _ _ => []) addC7
        ["bad.pdf", "good.pdf"]).2.1.getD 1 emptyBatch).docs.length = 1 := by
  refine ⟨by decide, by decide, by decide, by decide⟩

end Rag
